import Mathlib

/- Shallow embedding of src/app.py: the chunked-retrieval planner
   (chunk_date_range), the per-day aggregation engine (DailyAggregator),
   the fetch-loop record normalization, and the metric columns (imbalance,
   price_change).  Python dynamic values are modeled by PyVal, Python
   floats by the rationals, and the dict daily_data by an insertion-ordered
   association list. -/

/-- Model of a Python value as it reaches DailyAggregator.update: None, a
string, or a numeric (int and float collapsed to a rational). -/
inductive PyVal where
  | vNone : PyVal
  | vStr (s : String) : PyVal
  | vNum (q : ℚ) : PyVal
deriving DecidableEq

/-- Python exceptions the modeled code paths can raise. -/
inductive PyErr where
  | attributeError : PyErr
  | valueError : PyErr
  | typeError : PyErr
deriving DecidableEq

/-- Python truthiness of a modeled value: None, the empty string and 0 are
falsy, everything else truthy. -/
def truthy : PyVal → Bool
  | PyVal.vNone => false
  | PyVal.vStr s => decide (s ≠ "")
  | PyVal.vNum q => decide (q ≠ 0)

/-- Python x or y. -/
def pyOr (a b : PyVal) : PyVal := if truthy a then a else b

/-- str.lower(), computed on the character list (the core String.toLower
does not reduce in the kernel; this is the same function). -/
def strLower (s : String) : String := String.mk (s.data.map Char.toLower)

/-- Strip leading and trailing whitespace from a character list. -/
def trimChars (l : List Char) : List Char :=
  ((l.dropWhile Char.isWhitespace).reverse.dropWhile Char.isWhitespace).reverse

/-- The value of a nonempty all-digit character list, none otherwise. -/
def digitsValAux : ℕ → List Char → Option ℕ
  | acc, [] => some acc
  | acc, c :: cs =>
    if c.isDigit then digitsValAux (10 * acc + (c.toNat - 48)) cs else none

/-- The value of a nonempty all-digit character list, none otherwise. -/
def digitsVal : List Char → Option ℕ
  | [] => none
  | c :: cs => digitsValAux 0 (c :: cs)

/-- Split a character list at the dots. -/
def splitDot : List Char → List (List Char)
  | [] => [[]]
  | c :: cs =>
    if c = '.' then [] :: splitDot cs
    else
      match splitDot cs with
      | [] => [[c]]
      | h :: t => (c :: h) :: t

/-- Model of Python float(s) applied to a string: optional surrounding
whitespace, an optional sign, then decimal digits with an optional decimal
point.  (Scientific notation and the special spellings are not modeled; no
claim depends on them.)  none models a ValueError. -/
def pyFloatString (s : String) : Option ℚ :=
  let t := trimChars s.data
  let sgn : ℚ := if t.head? = some ('-') then -1 else 1
  let body := if t.head? = some ('-') ∨ t.head? = some ('+') then t.drop 1 else t
  match splitDot body with
  | [ipart] => (digitsVal ipart).map (fun n => sgn * (n : ℚ))
  | [ipart, fpart] =>
    if ipart = [] ∧ fpart = [] then none
    else
      let iv : Option ℕ := if ipart = [] then some 0 else digitsVal ipart
      let fv : Option ℕ := if fpart = [] then some 0 else digitsVal fpart
      match iv, fv with
      | some i, some f => some (sgn * ((i : ℚ) + (f : ℚ) / (10 : ℚ) ^ fpart.length))
      | _, _ => none
  | _ => none

/-- Model of Python float(x): numbers pass through, strings are parsed
(ValueError when unparsable), None raises TypeError. -/
def pyFloat : PyVal → Except PyErr ℚ
  | PyVal.vNum q => Except.ok q
  | PyVal.vStr s =>
    match pyFloatString s with
    | some q => Except.ok q
    | none => Except.error PyErr.valueError
  | PyVal.vNone => Except.error PyErr.typeError

/-- Model of the source pattern x.lower() if x else "none": a falsy value
maps to the sentinel "none", a truthy string is lower-cased, and a truthy
non-string raises AttributeError (it has no .lower method). -/
def lowerOrNone (v : PyVal) : Except PyErr String :=
  if truthy v then
    match v with
    | PyVal.vStr s => Except.ok (strLower s)
    | _ => Except.error PyErr.attributeError
  else Except.ok ("none")

/-- A key of the daily_data dict: a calendar day (an integer day number) or
the pandas NaT value, which the fetch path can pass as a date key. -/
inductive PDate where
  | NaT : PDate
  | d (n : ℤ) : PDate
deriving DecidableEq

/-- A value of the daily_data dict, as initialized by _ensure_date. -/
structure DayState where
  bid_volume : ℚ
  ask_volume : ℚ
  price : Option ℚ
deriving DecidableEq

/-- The zero-initialized entry _ensure_date creates. -/
def emptyDay : DayState := { bid_volume := 0, ask_volume := 0, price := none }

/-- DailyAggregator.daily_data: an insertion-ordered association list
modeling the Python dict. -/
abbrev AggState := List (PDate × DayState)

/-- A freshly constructed DailyAggregator (empty daily_data). -/
def agg0 : AggState := []

/-- Dict lookup on daily_data. -/
def lookupDay : AggState → PDate → Option DayState
  | [], _ => none
  | ent :: st, k => if ent.1 = k then some ent.2 else lookupDay st k

/-- The day entry for a key, defaulting to the zero entry (this is exactly
the entry in force right after _ensure_date when the key was absent). -/
def dayOf (st : AggState) (k : PDate) : DayState := (lookupDay st k).getD emptyDay

/-- DailyAggregator._ensure_date: create the zero entry on the first event
for a date (a Python dict appends new keys at the end). -/
def ensure_date (st : AggState) (k : PDate) : AggState :=
  if (lookupDay st k).isSome then st else st ++ [(k, emptyDay)]

/-- In-place mutation of the entry for a key (the entry is present whenever
the source mutates day_info, since _ensure_date has run). -/
def modifyDay : AggState → PDate → (DayState → DayState) → AggState
  | [], _, _ => []
  | ent :: st, k, f => if ent.1 = k then (ent.1, f ent.2) :: st else ent :: modifyDay st k f

/-- The action dispatch of DailyAggregator.update, once side and action are
lower-cased strings and size a float: add, cancel-trade-fill, modify and
clearbook branches, anything else a no-op. -/
def applyEventAction (day : DayState) (sideStr actionStr : String) (size : ℚ) : DayState :=
  if actionStr = "add" then
    if sideStr = "bid" then { day with bid_volume := day.bid_volume + size }
    else if sideStr = "ask" then { day with ask_volume := day.ask_volume + size }
    else day
  else if actionStr = "cancel" ∨ actionStr = "trade" ∨ actionStr = "fill" then
    if sideStr = "bid" then { day with bid_volume := max 0 (day.bid_volume - size) }
    else if sideStr = "ask" then { day with ask_volume := max 0 (day.ask_volume - size) }
    else day
  else if actionStr = "modify" then
    if sideStr = "bid" then { day with bid_volume := day.bid_volume + size }
    else if sideStr = "ask" then { day with ask_volume := day.ask_volume + size }
    else day
  else if actionStr = "clearbook" then
    { day with bid_volume := 0, ask_volume := 0 }
  else day

namespace DailyAggregator

/-- The tail of DailyAggregator.update after the price write: side.lower
(may raise), action.lower (may raise), float(size or 0.0) (may raise),
then the action dispatch mutating the day entry. -/
def updateRest (st2 : AggState) (dateobj : PDate) (side size action : PyVal) :
    AggState × Option PyErr :=
  match lowerOrNone side with
  | Except.error e => (st2, some e)
  | Except.ok sideStr =>
    match lowerOrNone action with
    | Except.error e => (st2, some e)
    | Except.ok actionStr =>
      match pyFloat (pyOr size (PyVal.vNum 0)) with
      | Except.error e => (st2, some e)
      | Except.ok sz =>
        (modifyDay st2 dateobj (fun day => applyEventAction day sideStr actionStr sz), none)

/-- DailyAggregator.update(dateobj, side, size, action, price).  The result
pairs the mutated daily_data with the exception raised, if any; mutations
performed before a raise (the _ensure_date insertion and the price write)
are kept, matching Python semantics.  The evaluation order mirrors the
source: _ensure_date, then the unconditional price write when price is not
None (float(price) may raise), then the updateRest steps. -/
def update (st : AggState) (dateobj : PDate) (side size action price : PyVal) :
    AggState × Option PyErr :=
  let st1 := ensure_date st dateobj
  match price with
  | PyVal.vNone => updateRest st1 dateobj side size action
  | pv =>
    match pyFloat pv with
    | Except.error e => (st1, some e)
    | Except.ok q =>
      updateRest (modifyDay st1 dateobj (fun day => { day with price := some q }))
        dateobj side size action

end DailyAggregator

/-- One recorded update call, with the dynamic values the call sites pass. -/
structure Call where
  dateobj : PDate
  side : PyVal
  size : PyVal
  action : PyVal
  price : PyVal
deriving DecidableEq

/-- Feed a sequence of events to one aggregator; a raised exception aborts
the surrounding Python loop, so processing stops at the first error. -/
def applyCalls : AggState → List Call → AggState × Option PyErr
  | st, [] => (st, none)
  | st, c :: cs =>
    match DailyAggregator.update st c.dateobj c.side c.size c.action c.price with
    | (st', some e) => (st', some e)
    | (st', none) => applyCalls st' cs

/-- A raw provider timestamp: either convertible to a calendar day, or a
value pd.to_datetime(..., errors="coerce") turns into NaT. -/
inductive TsRaw where
  | parsable (day : ℤ) : TsRaw
  | garbage : TsRaw
deriving DecidableEq

/-- Model of pd.to_datetime(ts_event, unit="ns", errors="coerce") composed
with .date(): some day on success, none for NaT. -/
def toDatetimeNs : TsRaw → Option ℤ
  | TsRaw.parsable n => some n
  | TsRaw.garbage => none

/-- A raw record as read via getattr in the fetch loop (absent attributes
become the getattr defaults at the call site). -/
structure RawRec where
  ts_event : Option TsRaw
  side : PyVal
  size : PyVal
  action : PyVal
  price : PyVal
deriving DecidableEq

/-- One iteration of the fetch-loop record processing (src/app.py lines
231-245).  When ts_event is absent, d is None and the record is skipped by
the d-is-not-None guard.  When ts_event is present but unparsable,
pd.to_datetime coerces it to NaT and NaT.date() returns NaT again, which
is not None, so the guard passes and the record IS fed to the aggregator
under the NaT key. -/
def processRec (st : AggState) (r : RawRec) : AggState × Option PyErr :=
  match r.ts_event with
  | none => (st, none)
  | some ts =>
    match toDatetimeNs ts with
    | none => DailyAggregator.update st PDate.NaT r.side r.size r.action r.price
    | some n => DailyAggregator.update st (PDate.d n) r.side r.size r.action r.price

/-- Process one fetched chunk's records in order; an exception aborts the
loop. -/
def processRecs : AggState → List RawRec → AggState × Option PyErr
  | st, [] => (st, none)
  | st, r :: rs =>
    match processRec st r with
    | (st', some e) => (st', some e)
    | (st', none) => processRecs st' rs

/-- One step of the while loop of chunk_date_range, with explicit fuel.
The loop advances current_start by at least one day per iteration, so
(end - start).toNat iterations always suffice; min (s + c) e is the
source's next_end = current_start + chunk_size_days clipped at end_date. -/
def chunkLoop (c : ℕ) : ℕ → ℤ → ℤ → List (ℤ × ℤ)
  | 0, _, _ => []
  | fuel + 1, s, e =>
    if s < e then
      (s, min (s + (c : ℤ)) e) :: chunkLoop c fuel (min (s + (c : ℤ)) e + 1) e
    else []

/-- chunk_date_range(start_date, end_date, chunk_size_days): splits the
range into (start, end) tuples exactly as the source loop does.  The
chunk size is a natural number: the UI constrains it to 1..60. -/
def chunk_date_range (s e : ℤ) (c : ℕ) : List (ℤ × ℤ) := chunkLoop c (e - s).toNat s e

/-- A row of the finalized daily table. -/
structure Row where
  date : PDate
  bid_volume : ℚ
  ask_volume : ℚ
  price : Option ℚ
deriving DecidableEq

/-- The date order used by sort_values: real dates ascending, NaT placed
last (the pandas default na_position). -/
def pdateLeB : PDate → PDate → Bool
  | PDate.d n, PDate.d m => decide (n ≤ m)
  | PDate.d _, PDate.NaT => true
  | PDate.NaT, PDate.NaT => true
  | PDate.NaT, PDate.d _ => false

/-- Insert one row into a date-sorted list, keeping earlier rows first on
ties. -/
def insertRow (r : Row) : List Row → List Row
  | [] => [r]
  | x :: xs => if pdateLeB r.date x.date then r :: x :: xs else x :: insertRow r xs

/-- Stable sort by date, modeling final_df.sort_values("date"). -/
def sortRows : List Row → List Row
  | [] => []
  | x :: xs => insertRow x (sortRows xs)

/-- DailyAggregator.to_dataframe: one row per stored day, in insertion
order, then sorted by date.  (On an empty aggregator the real code would
raise inside sort_values; no claim exercises that case.) -/
def to_dataframe (st : AggState) : List Row :=
  sortRows (st.map (fun ent =>
    { date := ent.1, bid_volume := ent.2.bid_volume,
      ask_volume := ent.2.ask_volume, price := ent.2.price }))

/-- The imbalance column: (bid - ask) / (bid + ask), with an exactly-zero
denominator first replaced by NA so the quotient is NA rather than a
fault. -/
def imbalanceCol (rows : List Row) : List (Option ℚ) :=
  rows.map (fun r =>
    if r.bid_volume + r.ask_volume = 0 then none
    else some ((r.bid_volume - r.ask_volume) / (r.bid_volume + r.ask_volume)))

/-- The price column of the table (None models NaN after astype(float)). -/
def priceCol (rows : List Row) : List (Option ℚ) := rows.map Row.price

/-- A float cell of the price_change column: NA (NaN), a signed infinity,
or a finite value. -/
inductive PC where
  | na : PC
  | inf : PC
  | ninf : PC
  | val (q : ℚ) : PC
deriving DecidableEq

/-- One cell of Series.pct_change in IEEE float arithmetic: a NaN previous
or current value yields NaN; a zero previous value yields a signed
infinity (or NaN when the current value is also 0); otherwise the finite
value cur / prev - 1. -/
def pctCell : Option ℚ → Option ℚ → PC
  | none, _ => PC.na
  | some _, none => PC.na
  | some p, some c =>
    if p = 0 then (if c = 0 then PC.na else if 0 < c then PC.inf else PC.ninf)
    else PC.val (c / p - 1)

/-- Model of final_df["price"].astype(float).pct_change(): each row paired
with its predecessor, row 0 with NaN. -/
def pctChange (prices : List (Option ℚ)) : List PC :=
  List.zipWith pctCell (none :: prices) prices

/-- An error escaping the fetch block: a provider request failure or an
exception raised while processing records. -/
inductive FetchErr where
  | providerError (msg : String) : FetchErr
  | pyError (e : PyErr) : FetchErr
deriving DecidableEq

/-- The chunk loop of the fetch block: one get_range request per window,
records fed to the aggregator.  There is no per-window handler in the
source; any exception - a failed request or a raise while processing -
propagates to the single try/except wrapping the whole block. -/
def runChunks (fetchF : ℤ × ℤ → Except String (List RawRec)) :
    AggState → List (ℤ × ℤ) → Except FetchErr AggState
  | st, [] => Except.ok st
  | st, w :: ws =>
    match fetchF w with
    | Except.error m => Except.error (FetchErr.providerError m)
    | Except.ok recs =>
      match processRecs st recs with
      | (_, some e) => Except.error (FetchErr.pyError e)
      | (st', none) => runChunks fetchF st' ws

/-- The fetch_data block (src/app.py lines 185-267): plan the windows, run
the chunk loop, then build the final table with its imbalance and
price_change columns.  An error anywhere reaches the outer except branch,
which only reports it: final_df is never assigned. -/
def fetchBlock (fetchF : ℤ × ℤ → Except String (List RawRec)) (s e : ℤ) (c : ℕ) :
    Except FetchErr (List Row × List (Option ℚ) × List PC) :=
  match runChunks fetchF agg0 (chunk_date_range s e c) with
  | Except.error err => Except.error err
  | Except.ok st =>
    let rows := to_dataframe st
    Except.ok (rows, imbalanceCol rows, pctChange (priceCol rows))

/- ------------------------------------------------------------------ -/
/- Helper lemmas and theorems about the claims                         -/
/- ------------------------------------------------------------------ -/

lemma chunkLoop_zero (c : ℕ) (s e : ℤ) : chunkLoop c 0 s e = [] := rfl

lemma chunkLoop_succ (c fuel : ℕ) (s e : ℤ) :
    chunkLoop c (fuel + 1) s e =
      if s < e then
        (s, min (s + (c : ℤ)) e) :: chunkLoop c fuel (min (s + (c : ℤ)) e + 1) e
      else [] := rfl

lemma chunkLoop_nil (c fuel : ℕ) (s e : ℤ) (h : ¬ s < e) : chunkLoop c fuel s e = [] := by
  cases fuel with
  | zero => rfl
  | succ fuel => rw [chunkLoop_succ, if_neg h]

/-- A chained window list: the first window starts at s, windows are
inclusive and consecutive (each start is the previous end plus one), and
the final window ends at le. -/
inductive WChain : ℤ → ℤ → List (ℤ × ℤ) → Prop where
  | last (s e : ℤ) (h : s ≤ e) : WChain s e [(s, e)]
  | cons (s m e : ℤ) (l : List (ℤ × ℤ)) (h : s ≤ m) (ht : WChain (m + 1) e l) :
      WChain s e ((s, m) :: l)

lemma WChain.le {s e : ℤ} {l : List (ℤ × ℤ)} (h : WChain s e l) : s ≤ e := by
  induction h with
  | last s e h => exact h
  | cons s m e l h ht ih => omega

lemma WChain.head_eq {s e : ℤ} {l : List (ℤ × ℤ)} (h : WChain s e l) :
    ∃ m, l.head? = some (s, m) := by
  cases h with
  | last s e h => exact ⟨e, rfl⟩
  | cons s m e l h ht => exact ⟨m, rfl⟩

lemma WChain.consecutive {s e : ℤ} {l : List (ℤ × ℤ)} (h : WChain s e l) :
    List.Chain' (fun a b => b.1 = a.2 + 1) l := by
  induction h with
  | last s e h => simp
  | cons s m e l h ht ih =>
    refine List.chain'_cons'.mpr ⟨?_, ih⟩
    intro b hb
    obtain ⟨m', hm'⟩ := ht.head_eq
    rw [hm'] at hb
    simp only [Option.mem_def, Option.some_inj] at hb
    rw [← hb]

lemma WChain.countP_eq {s e : ℤ} {l : List (ℤ × ℤ)} (h : WChain s e l) (x : ℤ) :
    l.countP (fun w => decide (w.1 ≤ x ∧ x ≤ w.2)) = if s ≤ x ∧ x ≤ e then 1 else 0 := by
  induction h with
  | last s e h =>
    simp only [List.countP_cons, List.countP_nil, decide_eq_true_eq]
    split_ifs <;> simp_all
  | cons s m e l h ht ih =>
    have hle : m + 1 ≤ e := ht.le
    simp only [List.countP_cons, decide_eq_true_eq, ih]
    split_ifs <;> simp_all <;> omega

/-- The invariant of the chunk_date_range loop: with enough fuel and a
nonempty range, the produced windows are chained from s to some last end
le, and le is e - 1 exactly when chunk + 1 divides e - s (in that case the
loop stops one day short of e), otherwise e. -/
lemma chunkLoop_spec (c : ℕ) : ∀ (fuel : ℕ) (s e : ℤ), (e - s).toNat ≤ fuel → s < e →
    ∃ le : ℤ, WChain s le (chunkLoop c fuel s e) ∧
      (((c : ℤ) + 1) ∣ (e - s) → le = e - 1) ∧ (¬ ((c : ℤ) + 1) ∣ (e - s) → le = e) := by
  intro fuel
  induction fuel with
  | zero => intro s e hf hse; omega
  | succ fuel ih =>
    intro s e hf hse
    rw [chunkLoop_succ, if_pos hse]
    by_cases hA : e ≤ s + (c : ℤ)
    · have hm : min (s + (c : ℤ)) e = e := by omega
      rw [hm, chunkLoop_nil c fuel (e + 1) e (by omega)]
      refine ⟨e, WChain.last s e (le_of_lt hse), ?_, fun _ => rfl⟩
      intro hdvd
      exfalso
      have hle := Int.le_of_dvd (by omega) hdvd
      omega
    · have hm : min (s + (c : ℤ)) e = s + (c : ℤ) := by omega
      rw [hm]
      by_cases hB : s + (c : ℤ) + 1 = e
      · rw [chunkLoop_nil c fuel (s + (c : ℤ) + 1) e (by omega)]
        refine ⟨e - 1, ?_, fun _ => rfl, fun hnd => absurd ⟨1, by omega⟩ hnd⟩
        have hse1 : s ≤ e - 1 := by omega
        have hc1 : s + (c : ℤ) = e - 1 := by omega
        rw [hc1]
        exact WChain.last s (e - 1) hse1
      · have hB' : s + (c : ℤ) + 1 < e := by omega
        obtain ⟨le, hch, hd1, hd2⟩ := ih (s + (c : ℤ) + 1) e (by omega) hB'
        have hsub : e - (s + (c : ℤ) + 1) = (e - s) - ((c : ℤ) + 1) := by ring
        refine ⟨le, WChain.cons s (s + (c : ℤ)) le _ (by omega) hch, ?_, ?_⟩
        · intro hdvd
          apply hd1
          rw [hsub]
          exact dvd_sub hdvd dvd_rfl
        · intro hnd
          apply hd2
          intro hdvd'
          apply hnd
          have hre : e - s = (e - (s + (c : ℤ) + 1)) + ((c : ℤ) + 1) := by ring
          rw [hre]
          exact dvd_add hdvd' dvd_rfl

/-- C8 (amended): for start < end and chunkDays >= 1, the planner's first
window starts at start, each later window starts one day after the
previous window's end, and the inclusive windows cover the dates of
[start, le] exactly once, where the last end le equals end unless
chunkDays + 1 divides end - start, in which case le = end - 1 and the date
end is covered by no window. -/
theorem chunk_date_range_covers (s e : ℤ) (c : ℕ) (hse : s < e) (_hc : 1 ≤ c) :
    ∃ le : ℤ,
      (∃ m, (chunk_date_range s e c).head? = some (s, m)) ∧
      List.Chain' (fun a b => b.1 = a.2 + 1) (chunk_date_range s e c) ∧
      (∀ x : ℤ, (chunk_date_range s e c).countP (fun w => decide (w.1 ≤ x ∧ x ≤ w.2)) =
          if s ≤ x ∧ x ≤ le then 1 else 0) ∧
      (((c : ℤ) + 1) ∣ (e - s) → le = e - 1) ∧
      (¬ ((c : ℤ) + 1) ∣ (e - s) → le = e) := by
  obtain ⟨le, hch, hd⟩ := chunkLoop_spec c (e - s).toNat s e le_rfl hse
  exact ⟨le, hch.head_eq, hch.consecutive, hch.countP_eq, hd.1, hd.2⟩

/-- Witness for the C8 theorem at start 0, end 5, chunkDays 2. -/
theorem chunk_date_range_covers_witness :
    (0 : ℤ) < 5 ∧ (1 : ℕ) ≤ 2 ∧
    (∃ le : ℤ,
      (∃ m, (chunk_date_range 0 5 2).head? = some (0, m)) ∧
      List.Chain' (fun a b => b.1 = a.2 + 1) (chunk_date_range 0 5 2) ∧
      (∀ x : ℤ, (chunk_date_range 0 5 2).countP (fun w => decide (w.1 ≤ x ∧ x ≤ w.2)) =
          if 0 ≤ x ∧ x ≤ le then 1 else 0) ∧
      (((2 : ℤ) + 1) ∣ (5 - 0) → le = 5 - 1) ∧
      (¬ ((2 : ℤ) + 1) ∣ (5 - 0) → le = 5)) :=
  ⟨by decide, by decide, chunk_date_range_covers 0 5 2 (by decide) (by decide)⟩

/-- C8 counterexample: at start 0, end 2, chunkDays 1 the planner yields
the single window (0, 1): the last window's end differs from end and the
date 2 is inside no window, refuting the coverage claim at this input. -/
theorem chunk_date_range_c8_cex :
    chunk_date_range 0 2 1 = [(0, 1)] ∧
    (¬ ∃ w ∈ chunk_date_range 0 2 1, w.2 = 2) ∧
    (¬ ∃ w ∈ chunk_date_range 0 2 1, w.1 ≤ 2 ∧ 2 ≤ w.2) := by decide

/-- C9 (amended): with chunkDays = 1 each window spans two days, so over
the 3-day range [s, s+2] the planner produces exactly one window
(s, s + 1), not three single-day windows; the day s + 2 is uncovered. -/
theorem chunk_date_range_threeday (s : ℤ) :
    chunk_date_range s (s + 2) 1 = [(s, s + 1)] := by
  have h2 : (s + 2 - s).toNat = 2 := by omega
  unfold chunk_date_range
  rw [h2, chunkLoop_succ, if_pos (by omega)]
  have hm : min (s + ((1 : ℕ) : ℤ)) (s + 2) = s + 1 := by omega
  rw [hm, chunkLoop_nil 1 1 (s + 1 + 1) (s + 2) (by omega)]

/-- C9 counterexample: chunkDays = 1 over the 3-day range [10, 12] yields
one window, not three, and that window covers two days, not one (over the
alternative reading [10, 13] it yields two windows, still not three). -/
theorem chunk_date_range_c9_cex :
    chunk_date_range 10 12 1 = [(10, 11)] ∧
    (chunk_date_range 10 12 1).length ≠ 3 ∧
    (chunk_date_range 10 13 1).length ≠ 3 ∧
    ∀ w ∈ chunk_date_range 10 12 1, w.1 ≠ w.2 := by decide

lemma lookupDay_append_ne (st : AggState) (k k' : PDate) (v : DayState) (h : k' ≠ k) :
    lookupDay (st ++ [(k, v)]) k' = lookupDay st k' := by
  induction st with
  | nil => simp [lookupDay, Ne.symm h]
  | cons ent st ih => by_cases he : ent.1 = k' <;> simp [lookupDay, he, ih]

lemma lookupDay_append_self (st : AggState) (k : PDate) (v : DayState)
    (h : lookupDay st k = none) :
    lookupDay (st ++ [(k, v)]) k = some v := by
  induction st with
  | nil => simp [lookupDay]
  | cons ent st ih =>
    by_cases he : ent.1 = k
    · rw [lookupDay, if_pos he] at h
      exact absurd h (by simp)
    · rw [lookupDay, if_neg he] at h
      simpa [lookupDay, he] using ih h

lemma lookupDay_ensure_ne (st : AggState) (k k' : PDate) (h : k' ≠ k) :
    lookupDay (ensure_date st k) k' = lookupDay st k' := by
  unfold ensure_date
  split
  · rfl
  · exact lookupDay_append_ne st k k' emptyDay h

lemma lookupDay_ensure_self (st : AggState) (k : PDate) :
    lookupDay (ensure_date st k) k = some (dayOf st k) := by
  unfold ensure_date dayOf
  cases hl : lookupDay st k with
  | none => simpa [hl] using lookupDay_append_self st k emptyDay hl
  | some v => simp [hl]

lemma lookupDay_modify_ne (st : AggState) (k k' : PDate) (f : DayState → DayState)
    (h : k' ≠ k) :
    lookupDay (modifyDay st k f) k' = lookupDay st k' := by
  induction st with
  | nil => rfl
  | cons ent st ih =>
    by_cases he : ent.1 = k
    · simp [modifyDay, he, lookupDay, Ne.symm h]
    · by_cases he' : ent.1 = k' <;> simp [modifyDay, he, lookupDay, he', h, ih]

lemma lookupDay_modify_self (st : AggState) (k : PDate) (f : DayState → DayState) :
    lookupDay (modifyDay st k f) k = (lookupDay st k).map f := by
  induction st with
  | nil => rfl
  | cons ent st ih =>
    by_cases he : ent.1 = k <;> simp [modifyDay, he, lookupDay, ih]

lemma dayOf_ensure_self (st : AggState) (k : PDate) :
    dayOf (ensure_date st k) k = dayOf st k := by
  unfold dayOf
  rw [lookupDay_ensure_self]
  rfl

lemma isSome_ensure_self (st : AggState) (k : PDate) :
    (lookupDay (ensure_date st k) k).isSome := by
  rw [lookupDay_ensure_self]
  rfl

lemma dayOf_modify_self (st : AggState) (k : PDate) (f : DayState → DayState)
    (h : (lookupDay st k).isSome) :
    dayOf (modifyDay st k f) k = f (dayOf st k) := by
  unfold dayOf
  rw [lookupDay_modify_self]
  cases hl : lookupDay st k with
  | none => rw [hl] at h; exact absurd h (by simp)
  | some v => simp [hl]

lemma isSome_modify_self (st : AggState) (k : PDate) (f : DayState → DayState)
    (h : (lookupDay st k).isSome) :
    (lookupDay (modifyDay st k f) k).isSome := by
  rw [lookupDay_modify_self]
  cases hl : lookupDay st k with
  | none => rw [hl] at h; exact absurd h (by simp)
  | some v => simp

lemma pyFloat_pyOr_num (q : ℚ) :
    pyFloat (pyOr (PyVal.vNum q) (PyVal.vNum 0)) = Except.ok q := by
  by_cases hq : q = 0 <;> simp [pyOr, truthy, hq, pyFloat]

lemma pyFloat_pyOr_none : pyFloat (pyOr PyVal.vNone (PyVal.vNum 0)) = Except.ok 0 := rfl

lemma lowerOrNone_ok (v : PyVal) (h : v = PyVal.vNone ∨ ∃ s, v = PyVal.vStr s) :
    ∃ s', lowerOrNone v = Except.ok s' := by
  rcases h with rfl | ⟨s, rfl⟩
  · exact ⟨"none", rfl⟩
  · by_cases hs : s = ""
    · exact ⟨"none", by simp [lowerOrNone, truthy, hs]⟩
    · exact ⟨strLower s, by simp [lowerOrNone, truthy, hs]⟩

lemma update_eq_vNone (st : AggState) (k : PDate) (side size action : PyVal) :
    DailyAggregator.update st k side size action PyVal.vNone =
      DailyAggregator.updateRest (ensure_date st k) k side size action := rfl

lemma update_eq_vStr (st : AggState) (k : PDate) (side size action : PyVal) (s : String) :
    DailyAggregator.update st k side size action (PyVal.vStr s) =
      (match pyFloat (PyVal.vStr s) with
       | Except.error e => (ensure_date st k, some e)
       | Except.ok q => DailyAggregator.updateRest
           (modifyDay (ensure_date st k) k (fun day => { day with price := some q }))
           k side size action) := rfl

lemma update_eq_vNum (st : AggState) (k : PDate) (side size action : PyVal) (q : ℚ) :
    DailyAggregator.update st k side size action (PyVal.vNum q) =
      DailyAggregator.updateRest
        (modifyDay (ensure_date st k) k (fun day => { day with price := some q }))
        k side size action := rfl

lemma updateRest_frame (st2 : AggState) (k k' : PDate) (side size action : PyVal)
    (h : k' ≠ k) :
    lookupDay (DailyAggregator.updateRest st2 k side size action).1 k' = lookupDay st2 k' := by
  unfold DailyAggregator.updateRest
  cases hls : lowerOrNone side with
  | error e => rfl
  | ok sideStr =>
    cases hla : lowerOrNone action with
    | error e => rfl
    | ok actionStr =>
      cases hfz : pyFloat (pyOr size (PyVal.vNum 0)) with
      | error e => rfl
      | ok sz => exact lookupDay_modify_ne st2 k k' _ h

/-- C10: DailyAggregator.update only ever touches the entry of its own
date: for every other date the stored DayState (volumes and price) after
the call is exactly what it was before, on the success paths and on the
raising paths alike. -/
theorem update_frame (st : AggState) (k k' : PDate) (side size action price : PyVal)
    (h : k' ≠ k) :
    lookupDay (DailyAggregator.update st k side size action price).1 k' = lookupDay st k' := by
  have he := lookupDay_ensure_ne st k k' h
  cases price with
  | vNone =>
    rw [update_eq_vNone, updateRest_frame _ _ _ _ _ _ h, he]
  | vStr s =>
    rw [update_eq_vStr]
    cases hp : pyFloat (PyVal.vStr s) with
    | error e => exact he
    | ok q =>
      exact (updateRest_frame _ _ _ _ _ _ h).trans
        ((lookupDay_modify_ne _ _ _ _ h).trans he)
  | vNum q =>
    rw [update_eq_vNum]
    exact (updateRest_frame _ _ _ _ _ _ h).trans
      ((lookupDay_modify_ne _ _ _ _ h).trans he)

/-- Witness for the C10 theorem: updating date 0 leaves the entry stored
for date 1 untouched. -/
theorem update_frame_witness :
    PDate.d 1 ≠ PDate.d 0 ∧
    lookupDay (DailyAggregator.update
        [(PDate.d 1, { bid_volume := 2, ask_volume := 3, price := none })]
        (PDate.d 0) (PyVal.vStr ("Bid")) (PyVal.vNum 5) (PyVal.vStr ("Add")) PyVal.vNone).1
        (PDate.d 1)
      = lookupDay [(PDate.d 1, { bid_volume := 2, ask_volume := 3, price := none })]
        (PDate.d 1) :=
  ⟨by decide, update_frame _ _ _ _ _ _ _ (by decide)⟩

/-- All stored volumes of an aggregator state are nonnegative. -/
def VolsNonneg (st : AggState) : Prop :=
  ∀ ent ∈ st, 0 ≤ ent.2.bid_volume ∧ 0 ≤ ent.2.ask_volume

lemma volsNonneg_ensure (st : AggState) (k : PDate) (h : VolsNonneg st) :
    VolsNonneg (ensure_date st k) := by
  unfold ensure_date
  split
  · exact h
  · intro ent hent
    rcases List.mem_append.mp hent with hm | hm
    · exact h ent hm
    · simp only [List.mem_singleton] at hm
      rw [hm]
      simp [emptyDay]

lemma volsNonneg_modify (k : PDate) (f : DayState → DayState)
    (hf : ∀ day : DayState, 0 ≤ day.bid_volume ∧ 0 ≤ day.ask_volume →
      0 ≤ (f day).bid_volume ∧ 0 ≤ (f day).ask_volume) :
    ∀ st : AggState, VolsNonneg st → VolsNonneg (modifyDay st k f) := by
  intro st
  induction st with
  | nil => intro h ent hent; simp [modifyDay] at hent
  | cons ent st ih =>
    intro h x hx
    by_cases he : ent.1 = k
    · rw [modifyDay, if_pos he] at hx
      rcases List.mem_cons.mp hx with rfl | hm
      · exact hf ent.2 (h ent (List.mem_cons_self _ _))
      · exact h x (List.mem_cons_of_mem _ hm)
    · rw [modifyDay, if_neg he] at hx
      rcases List.mem_cons.mp hx with rfl | hm
      · exact h _ (List.mem_cons_self _ _)
      · exact ih (fun y hy => h y (List.mem_cons_of_mem _ hy)) x hm

lemma applyEventAction_bid (day : DayState) (sd ac : String) (q : ℚ) :
    (applyEventAction day sd ac q).bid_volume =
      if (ac = "add" ∨ ac = "modify") ∧ sd = "bid" then day.bid_volume + q
      else if (ac = "cancel" ∨ ac = "trade" ∨ ac = "fill") ∧ sd = "bid" then
        max 0 (day.bid_volume - q)
      else if ac = "clearbook" then 0
      else day.bid_volume := by
  unfold applyEventAction
  split_ifs <;> simp_all +decide

lemma applyEventAction_ask (day : DayState) (sd ac : String) (q : ℚ) :
    (applyEventAction day sd ac q).ask_volume =
      if (ac = "add" ∨ ac = "modify") ∧ sd = "ask" then day.ask_volume + q
      else if (ac = "cancel" ∨ ac = "trade" ∨ ac = "fill") ∧ sd = "ask" then
        max 0 (day.ask_volume - q)
      else if ac = "clearbook" then 0
      else day.ask_volume := by
  unfold applyEventAction
  split_ifs <;> simp_all +decide

lemma applyEventAction_nonneg (day : DayState) (sd ac : String) (q : ℚ) (hq : 0 ≤ q)
    (hb : 0 ≤ day.bid_volume) (ha : 0 ≤ day.ask_volume) :
    0 ≤ (applyEventAction day sd ac q).bid_volume ∧
    0 ≤ (applyEventAction day sd ac q).ask_volume := by
  rw [applyEventAction_bid, applyEventAction_ask]
  constructor <;> split_ifs <;> first | linarith | exact le_max_left 0 _

lemma updateRest_volsNonneg (st2 : AggState) (k : PDate) (side size action : PyVal)
    (h : VolsNonneg st2)
    (hsz : ∀ q : ℚ, pyFloat (pyOr size (PyVal.vNum 0)) = Except.ok q → 0 ≤ q) :
    VolsNonneg (DailyAggregator.updateRest st2 k side size action).1 := by
  unfold DailyAggregator.updateRest
  cases hls : lowerOrNone side with
  | error e => exact h
  | ok sideStr =>
    cases hla : lowerOrNone action with
    | error e => exact h
    | ok actionStr =>
      cases hfz : pyFloat (pyOr size (PyVal.vNum 0)) with
      | error e => exact h
      | ok sz =>
        exact volsNonneg_modify k _
          (fun day hd => applyEventAction_nonneg day sideStr actionStr sz (hsz sz hfz) hd.1 hd.2)
          st2 h

lemma update_volsNonneg (st : AggState) (k : PDate) (side size action price : PyVal)
    (h : VolsNonneg st)
    (hsz : ∀ q : ℚ, pyFloat (pyOr size (PyVal.vNum 0)) = Except.ok q → 0 ≤ q) :
    VolsNonneg (DailyAggregator.update st k side size action price).1 := by
  have h1 := volsNonneg_ensure st k h
  cases price with
  | vNone =>
    rw [update_eq_vNone]
    exact updateRest_volsNonneg _ _ _ _ _ h1 hsz
  | vStr s =>
    rw [update_eq_vStr]
    cases hp : pyFloat (PyVal.vStr s) with
    | error e => exact h1
    | ok q =>
      exact updateRest_volsNonneg _ _ _ _ _
        (volsNonneg_modify k _ (fun day hd => by simpa using hd) _ h1) hsz
  | vNum q =>
    rw [update_eq_vNum]
    exact updateRest_volsNonneg _ _ _ _ _
      (volsNonneg_modify k _ (fun day hd => by simpa using hd) _ h1) hsz

lemma applyCalls_volsNonneg : ∀ (l : List Call) (st : AggState), VolsNonneg st →
    (∀ cl ∈ l, ∃ q : ℚ, cl.size = PyVal.vNum q ∧ 0 ≤ q) →
    VolsNonneg (applyCalls st l).1 := by
  intro l
  induction l with
  | nil => intro st h _; exact h
  | cons cl cls ih =>
    intro st h hg
    obtain ⟨q, hq, hq0⟩ := hg cl (List.mem_cons_self _ _)
    have hsz : ∀ r : ℚ, pyFloat (pyOr cl.size (PyVal.vNum 0)) = Except.ok r → 0 ≤ r := by
      intro r hr
      rw [hq, pyFloat_pyOr_num] at hr
      injection hr with h2
      exact h2 ▸ hq0
    have hst := update_volsNonneg st cl.dateobj cl.side cl.size cl.action cl.price h hsz
    rcases hu : DailyAggregator.update st cl.dateobj cl.side cl.size cl.action cl.price
      with ⟨st', o⟩
    rw [hu] at hst
    cases o with
    | some e => simpa [applyCalls, hu] using hst
    | none =>
      have := ih st' hst (fun x hx => hg x (List.mem_cons_of_mem _ hx))
      simpa [applyCalls, hu] using this

lemma updateRest_eq_ok (st2 : AggState) (k : PDate) (side size action : PyVal)
    (sideStr actionStr : String) (sz : ℚ)
    (hs : lowerOrNone side = Except.ok sideStr)
    (ha : lowerOrNone action = Except.ok actionStr)
    (hz : pyFloat (pyOr size (PyVal.vNum 0)) = Except.ok sz) :
    DailyAggregator.updateRest st2 k side size action =
      (modifyDay st2 k (fun day => applyEventAction day sideStr actionStr sz), none) := by
  unfold DailyAggregator.updateRest
  rw [hs, ha, hz]

lemma update_clamp_bid (st : AggState) (k : PDate) (side action : PyVal) (q : ℚ) (a : String)
    (hs : lowerOrNone side = Except.ok ("bid"))
    (ha : lowerOrNone action = Except.ok a)
    (hctf : a = "cancel" ∨ a = "trade" ∨ a = "fill")
    (hneg : (dayOf st k).bid_volume - q < 0) :
    (dayOf (DailyAggregator.update st k side (PyVal.vNum q) action PyVal.vNone).1 k).bid_volume
      = 0 := by
  rw [update_eq_vNone, updateRest_eq_ok _ _ _ _ _ _ _ _ hs ha (pyFloat_pyOr_num q)]
  rw [dayOf_modify_self _ _ _ (isSome_ensure_self st k), dayOf_ensure_self]
  rw [applyEventAction_bid]
  rcases hctf with rfl | rfl | rfl <;>
    rw [if_neg (by decide), if_pos (by decide)] <;>
    exact max_eq_left (le_of_lt hneg)

lemma update_clamp_ask (st : AggState) (k : PDate) (side action : PyVal) (q : ℚ) (a : String)
    (hs : lowerOrNone side = Except.ok ("ask"))
    (ha : lowerOrNone action = Except.ok a)
    (hctf : a = "cancel" ∨ a = "trade" ∨ a = "fill")
    (hneg : (dayOf st k).ask_volume - q < 0) :
    (dayOf (DailyAggregator.update st k side (PyVal.vNum q) action PyVal.vNone).1 k).ask_volume
      = 0 := by
  rw [update_eq_vNone, updateRest_eq_ok _ _ _ _ _ _ _ _ hs ha (pyFloat_pyOr_num q)]
  rw [dayOf_modify_self _ _ _ (isSome_ensure_self st k), dayOf_ensure_self]
  rw [applyEventAction_ask]
  rcases hctf with rfl | rfl | rfl <;>
    rw [if_neg (by decide), if_pos (by decide)] <;>
    exact max_eq_left (le_of_lt hneg)

/-- C2 (amended): for every sequence of update calls whose sizes are
nonnegative numerics - with any dates, sides, actions and prices - every
stored bid_volume and ask_volume is nonnegative after every call (every
prefix of calls is itself such a sequence); and a cancel/trade/fill whose
size exceeds the current side volume sets that volume to exactly 0.  The
restriction to nonnegative sizes is forced: with a negative size, add and
modify drive a volume negative (see the counterexample). -/
theorem update_vols_nonneg_clamp (calls : List Call)
    (hsz : ∀ cl ∈ calls, ∃ q : ℚ, cl.size = PyVal.vNum q ∧ 0 ≤ q) :
    VolsNonneg (applyCalls agg0 calls).1 ∧
    (∀ (st : AggState) (k : PDate) (side action : PyVal) (q : ℚ) (a : String),
      lowerOrNone side = Except.ok ("bid") →
      lowerOrNone action = Except.ok a →
      (a = "cancel" ∨ a = "trade" ∨ a = "fill") →
      (dayOf st k).bid_volume - q < 0 →
      (dayOf (DailyAggregator.update st k side (PyVal.vNum q) action
        PyVal.vNone).1 k).bid_volume = 0) ∧
    (∀ (st : AggState) (k : PDate) (side action : PyVal) (q : ℚ) (a : String),
      lowerOrNone side = Except.ok ("ask") →
      lowerOrNone action = Except.ok a →
      (a = "cancel" ∨ a = "trade" ∨ a = "fill") →
      (dayOf st k).ask_volume - q < 0 →
      (dayOf (DailyAggregator.update st k side (PyVal.vNum q) action
        PyVal.vNone).1 k).ask_volume = 0) := by
  refine ⟨?_, ?_, ?_⟩
  · exact applyCalls_volsNonneg calls agg0 (fun ent hent => absurd hent (by simp [agg0])) hsz
  · intro st k side action q a hs ha hctf hneg
    exact update_clamp_bid st k side action q a hs ha hctf hneg
  · intro st k side action q a hs ha hctf hneg
    exact update_clamp_ask st k side action q a hs ha hctf hneg

/-- C2 counterexample: the claim allows any sizes, but a single add with
size -5 leaves bid_volume = -5, which is negative. -/
theorem update_negative_size_cex :
    (dayOf (DailyAggregator.update agg0 (PDate.d 0) (PyVal.vStr ("Bid")) (PyVal.vNum (-5))
        (PyVal.vStr ("Add")) PyVal.vNone).1 (PDate.d 0)).bid_volume = -5 ∧
    ¬ (0 : ℚ) ≤ -5 := by
  constructor
  · simp +decide [DailyAggregator.update, DailyAggregator.updateRest, agg0, ensure_date,
      lookupDay, dayOf, modifyDay, lowerOrNone, truthy, strLower, pyFloat, pyOr,
      applyEventAction, emptyDay, decide_eq_true_eq]
  · norm_num

/-- The one-call sequence used by the C2 witness. -/
def c2wCall : Call :=
  { dateobj := PDate.d 0, side := PyVal.vStr ("Bid"), size := PyVal.vNum 5,
    action := PyVal.vStr ("Add"), price := PyVal.vNone }

/-- Witness for the C2 theorem on a one-call sequence of nonnegative size. -/
theorem update_vols_nonneg_clamp_witness :
    (∀ cl ∈ [c2wCall], ∃ q : ℚ, cl.size = PyVal.vNum q ∧ 0 ≤ q) ∧
    (VolsNonneg (applyCalls agg0 [c2wCall]).1 ∧
    (∀ (st : AggState) (k : PDate) (side action : PyVal) (q : ℚ) (a : String),
      lowerOrNone side = Except.ok ("bid") →
      lowerOrNone action = Except.ok a →
      (a = "cancel" ∨ a = "trade" ∨ a = "fill") →
      (dayOf st k).bid_volume - q < 0 →
      (dayOf (DailyAggregator.update st k side (PyVal.vNum q) action
        PyVal.vNone).1 k).bid_volume = 0) ∧
    (∀ (st : AggState) (k : PDate) (side action : PyVal) (q : ℚ) (a : String),
      lowerOrNone side = Except.ok ("ask") →
      lowerOrNone action = Except.ok a →
      (a = "cancel" ∨ a = "trade" ∨ a = "fill") →
      (dayOf st k).ask_volume - q < 0 →
      (dayOf (DailyAggregator.update st k side (PyVal.vNum q) action
        PyVal.vNone).1 k).ask_volume = 0)) :=
  have hg : ∀ cl ∈ [c2wCall], ∃ q : ℚ, cl.size = PyVal.vNum q ∧ 0 ≤ q := by
    intro cl hcl
    rw [List.mem_singleton] at hcl
    subst hcl
    exact ⟨5, rfl, by norm_num⟩
  ⟨hg, update_vols_nonneg_clamp _ hg⟩

/-- C4 (amended): update completes without raising whenever side and
action are each a string or None and size and price are each numeric or
None; within these shapes, malformed values (empty or unrecognized
strings, a None side or size) degrade to no-ops or defaults.  Outside
them update does raise - an unparsable size string is a ValueError and a
truthy non-string side an AttributeError (see the counterexample) - so the
unrestricted "never fails" of the claim is false. -/
theorem update_no_raise (st : AggState) (k : PDate) (side size action price : PyVal)
    (hs : side = PyVal.vNone ∨ ∃ s, side = PyVal.vStr s)
    (ha : action = PyVal.vNone ∨ ∃ s, action = PyVal.vStr s)
    (hz : size = PyVal.vNone ∨ ∃ q, size = PyVal.vNum q)
    (hp : price = PyVal.vNone ∨ ∃ q, price = PyVal.vNum q) :
    (DailyAggregator.update st k side size action price).2 = none := by
  obtain ⟨sideStr, hss⟩ := lowerOrNone_ok side hs
  obtain ⟨actionStr, has⟩ := lowerOrNone_ok action ha
  have hzz : ∃ sz, pyFloat (pyOr size (PyVal.vNum 0)) = Except.ok sz := by
    rcases hz with rfl | ⟨q, rfl⟩
    · exact ⟨0, pyFloat_pyOr_none⟩
    · exact ⟨q, pyFloat_pyOr_num q⟩
  obtain ⟨sz, hzs⟩ := hzz
  have hrest : ∀ st2, (DailyAggregator.updateRest st2 k side size action).2 = none := by
    intro st2
    rw [updateRest_eq_ok st2 k side size action sideStr actionStr sz hss has hzs]
  rcases hp with rfl | ⟨q, rfl⟩
  · rw [update_eq_vNone]
    exact hrest _
  · rw [update_eq_vNum]
    exact hrest _

/-- Witness for the C4 theorem: a well-shaped call with an unrecognized
action string raises nothing. -/
theorem update_no_raise_witness :
    (PyVal.vStr ("Bid") = PyVal.vNone ∨ ∃ s, PyVal.vStr ("Bid") = PyVal.vStr s) ∧
    (PyVal.vStr ("Zap") = PyVal.vNone ∨ ∃ s, PyVal.vStr ("Zap") = PyVal.vStr s) ∧
    (PyVal.vNum 2 = PyVal.vNone ∨ ∃ q, PyVal.vNum 2 = PyVal.vNum q) ∧
    (PyVal.vNone = PyVal.vNone ∨ ∃ q, PyVal.vNone = PyVal.vNum q) ∧
    (DailyAggregator.update agg0 (PDate.d 0) (PyVal.vStr ("Bid")) (PyVal.vNum 2)
      (PyVal.vStr ("Zap")) PyVal.vNone).2 = none :=
  ⟨Or.inr ⟨_, rfl⟩, Or.inr ⟨_, rfl⟩, Or.inr ⟨_, rfl⟩, Or.inl rfl,
    update_no_raise agg0 (PDate.d 0) _ _ _ _ (Or.inr ⟨_, rfl⟩) (Or.inr ⟨_, rfl⟩)
      (Or.inr ⟨_, rfl⟩) (Or.inl rfl)⟩

/-- C4 counterexample: the size string "abc" raises ValueError inside
float(), and a truthy numeric side raises AttributeError inside
side.lower(); update does not absorb malformed inputs of these shapes. -/
theorem update_raises_cex :
    (DailyAggregator.update agg0 (PDate.d 0) (PyVal.vStr ("Bid")) (PyVal.vStr ("abc"))
        (PyVal.vStr ("Add")) PyVal.vNone).2 = some PyErr.valueError ∧
    (DailyAggregator.update agg0 (PDate.d 0) (PyVal.vNum 5) (PyVal.vNum 1)
        (PyVal.vStr ("Add")) PyVal.vNone).2 = some PyErr.attributeError := by
  constructor <;>
    simp +decide [DailyAggregator.update, DailyAggregator.updateRest, agg0, ensure_date,
      lookupDay, modifyDay, lowerOrNone, truthy, strLower, pyFloat, pyOr, pyFloatString,
      trimChars, splitDot, digitsVal, digitsValAux, decide_eq_true_eq]

lemma lowerOrNone_vStr_ne (s : String) (hs : s ≠ "") :
    lowerOrNone (PyVal.vStr s) = Except.ok (strLower s) := by
  simp [lowerOrNone, truthy, hs]

lemma ne_empty_of_strLower {a t : String} (h : strLower a = t) (ht : t ≠ "") : a ≠ "" := by
  intro hae
  have h0 : strLower ("") = "" := rfl
  rw [hae, h0] at h
  exact ht h.symm

/-- The lowered side string an event contributes under (the "none"
sentinel when side is falsy; a dummy for shapes that would raise). -/
def sideStrOf (v : PyVal) : String :=
  match lowerOrNone v with
  | Except.ok s => s
  | Except.error _ => ""

/-- The bid-volume contribution of one add/modify event. -/
def bidContrib (cl : Call) : ℚ :=
  match cl.size with
  | PyVal.vNum q => if sideStrOf cl.side = "bid" then q else 0
  | _ => 0

/-- The ask-volume contribution of one add/modify event. -/
def askContrib (cl : Call) : ℚ :=
  match cl.size with
  | PyVal.vNum q => if sideStrOf cl.side = "ask" then q else 0
  | _ => 0

/-- An add/modify event for day k, shaped so that update cannot raise: a
string action lower-casing to add or modify, a numeric size, a string or
None side, and a numeric or None price. -/
def GoodAM (k : PDate) (cl : Call) : Prop :=
  cl.dateobj = k ∧
  (∃ a, cl.action = PyVal.vStr a ∧ (strLower a = "add" ∨ strLower a = "modify")) ∧
  (∃ q, cl.size = PyVal.vNum q) ∧
  (cl.side = PyVal.vNone ∨ ∃ s, cl.side = PyVal.vStr s) ∧
  (cl.price = PyVal.vNone ∨ ∃ p, cl.price = PyVal.vNum p)

lemma applyEventAction_am (day : DayState) (sd a : String)
    (ha : a = "add" ∨ a = "modify") (q : ℚ) :
    (applyEventAction day sd a q).bid_volume
      = day.bid_volume + (if sd = "bid" then q else 0) ∧
    (applyEventAction day sd a q).ask_volume
      = day.ask_volume + (if sd = "ask" then q else 0) := by
  rw [applyEventAction_bid, applyEventAction_ask]
  rcases ha with rfl | rfl <;>
    constructor <;>
    split_ifs <;>
    simp_all +decide

lemma update_goodAM_step (st : AggState) (k : PDate) (cl : Call) (hg : GoodAM k cl) :
    (DailyAggregator.update st cl.dateobj cl.side cl.size cl.action cl.price).2 = none ∧
    (dayOf (DailyAggregator.update st cl.dateobj cl.side cl.size cl.action cl.price).1
      k).bid_volume = (dayOf st k).bid_volume + bidContrib cl ∧
    (dayOf (DailyAggregator.update st cl.dateobj cl.side cl.size cl.action cl.price).1
      k).ask_volume = (dayOf st k).ask_volume + askContrib cl := by
  obtain ⟨hk, ⟨a, hac, ham⟩, ⟨q, hq⟩, hside, hprice⟩ := hg
  obtain ⟨sideStr, hss⟩ := lowerOrNone_ok cl.side hside
  have hsv : sideStrOf cl.side = sideStr := by
    rw [sideStrOf, hss]
  have hane : a ≠ "" := by
    rcases ham with h | h
    · exact ne_empty_of_strLower h (by decide)
    · exact ne_empty_of_strLower h (by decide)
  have has : lowerOrNone cl.action = Except.ok (strLower a) := by
    rw [hac]
    exact lowerOrNone_vStr_ne a hane
  have hzs : pyFloat (pyOr cl.size (PyVal.vNum 0)) = Except.ok q := by
    rw [hq]
    exact pyFloat_pyOr_num q
  have hbc : bidContrib cl = (if sideStr = "bid" then q else 0) := by
    rw [bidContrib, hq, hsv]
  have hakc : askContrib cl = (if sideStr = "ask" then q else 0) := by
    rw [askContrib, hq, hsv]
  have hcore : ∀ st2 : AggState, (lookupDay st2 k).isSome →
      (DailyAggregator.updateRest st2 k cl.side cl.size cl.action).2 = none ∧
      (dayOf (DailyAggregator.updateRest st2 k cl.side cl.size cl.action).1 k).bid_volume
        = (dayOf st2 k).bid_volume + bidContrib cl ∧
      (dayOf (DailyAggregator.updateRest st2 k cl.side cl.size cl.action).1 k).ask_volume
        = (dayOf st2 k).ask_volume + askContrib cl := by
    intro st2 hsome
    rw [updateRest_eq_ok st2 k cl.side cl.size cl.action sideStr (strLower a) q hss has hzs]
    refine ⟨rfl, ?_, ?_⟩ <;>
      rw [dayOf_modify_self _ _ _ hsome] <;>
      [rw [hbc, (applyEventAction_am (dayOf st2 k) sideStr (strLower a) ham q).1];
       rw [hakc, (applyEventAction_am (dayOf st2 k) sideStr (strLower a) ham q).2]]
  rw [hk]
  rcases hprice with hpn | ⟨p, hpv⟩
  · rw [hpn, update_eq_vNone]
    have h1 := hcore (ensure_date st k) (isSome_ensure_self st k)
    rw [dayOf_ensure_self] at h1
    exact h1
  · rw [hpv, update_eq_vNum]
    have hsome2 := isSome_modify_self (ensure_date st k) k
      (fun day => { day with price := some p }) (isSome_ensure_self st k)
    have h1 := hcore _ hsome2
    rw [dayOf_modify_self _ _ _ (isSome_ensure_self st k), dayOf_ensure_self] at h1
    exact h1

lemma applyCalls_goodAM (k : PDate) : ∀ (l : List Call) (st : AggState),
    (∀ cl ∈ l, GoodAM k cl) →
    (applyCalls st l).2 = none ∧
    (dayOf (applyCalls st l).1 k).bid_volume
      = (dayOf st k).bid_volume + (l.map bidContrib).sum ∧
    (dayOf (applyCalls st l).1 k).ask_volume
      = (dayOf st k).ask_volume + (l.map askContrib).sum := by
  intro l
  induction l with
  | nil =>
    intro st _
    exact ⟨rfl, by simp [applyCalls], by simp [applyCalls]⟩
  | cons cl cls ih =>
    intro st hg
    obtain ⟨h2, hb, ha⟩ := update_goodAM_step st k cl (hg cl (List.mem_cons_self _ _))
    rcases hu : DailyAggregator.update st cl.dateobj cl.side cl.size cl.action cl.price
      with ⟨st', o⟩
    rw [hu] at h2 hb ha
    simp only [] at h2 hb ha
    subst h2
    obtain ⟨ih2, ihb, iha⟩ := ih st' (fun x hx => hg x (List.mem_cons_of_mem _ hx))
    refine ⟨?_, ?_, ?_⟩ <;>
      simp only [applyCalls, hu, List.map_cons, List.sum_cons]
    · exact ih2
    · rw [ihb, hb]
      ring
    · rw [iha, ha]
      ring

/-- C3 (amended): within a single day, events whose actions lower-case to
add or modify (numeric sizes, non-raising sides and prices) commute: every
permutation of such an event list yields the same final bid and ask
volumes.  The claim's inclusion of cancel/trade/fill is false: the clamp
at zero makes add and cancel order-dependent (see the counterexample). -/
theorem aggregator_add_modify_perm (k : PDate) (l1 l2 : List Call) (hp : l1.Perm l2)
    (hg : ∀ cl ∈ l1, GoodAM k cl) :
    (dayOf (applyCalls agg0 l1).1 k).bid_volume
      = (dayOf (applyCalls agg0 l2).1 k).bid_volume ∧
    (dayOf (applyCalls agg0 l1).1 k).ask_volume
      = (dayOf (applyCalls agg0 l2).1 k).ask_volume := by
  have hg2 : ∀ cl ∈ l2, GoodAM k cl := fun cl hcl => hg cl (hp.mem_iff.mpr hcl)
  obtain ⟨-, hb1, ha1⟩ := applyCalls_goodAM k l1 agg0 hg
  obtain ⟨-, hb2, ha2⟩ := applyCalls_goodAM k l2 agg0 hg2
  refine ⟨?_, ?_⟩
  · rw [hb1, hb2, (hp.map bidContrib).sum_eq]
  · rw [ha1, ha2, (hp.map askContrib).sum_eq]

/-- The add event of the C3 counterexample: add 5 to the bid side. -/
def c3Add : Call :=
  { dateobj := PDate.d 0, side := PyVal.vStr ("Bid"), size := PyVal.vNum 5,
    action := PyVal.vStr ("Add"), price := PyVal.vNone }

/-- The cancel event of the C3 counterexample: cancel 10 from the bid side. -/
def c3Cancel : Call :=
  { dateobj := PDate.d 0, side := PyVal.vStr ("Bid"), size := PyVal.vNum 10,
    action := PyVal.vStr ("Cancel"), price := PyVal.vNone }

/-- C3 counterexample: one day's events drawn from add and cancel, in the
two orders that are permutations of each other: add 5 then cancel 10
clamps to bid 0, while cancel 10 then add 5 ends at bid 5 - the final
volumes differ, so add and cancel do not commute within a day. -/
theorem aggregator_perm_cex :
    [c3Add, c3Cancel].Perm [c3Cancel, c3Add] ∧
    (dayOf (applyCalls agg0 [c3Add, c3Cancel]).1 (PDate.d 0)).bid_volume = 0 ∧
    (dayOf (applyCalls agg0 [c3Cancel, c3Add]).1 (PDate.d 0)).bid_volume = 5 := by
  refine ⟨List.Perm.swap _ _ _, ?_, ?_⟩ <;>
    simp +decide [applyCalls, c3Add, c3Cancel, DailyAggregator.update,
      DailyAggregator.updateRest, agg0, ensure_date, lookupDay, dayOf, modifyDay,
      lowerOrNone, truthy, strLower, pyFloat, pyOr, applyEventAction, emptyDay,
      decide_eq_true_eq, max_def]

/-- First event of the C3 witness: add 2 to the bid side. -/
def c3w1 : Call :=
  { dateobj := PDate.d 0, side := PyVal.vStr ("Bid"), size := PyVal.vNum 2,
    action := PyVal.vStr ("Add"), price := PyVal.vNone }

/-- Second event of the C3 witness: modify 3 on the ask side. -/
def c3w2 : Call :=
  { dateobj := PDate.d 0, side := PyVal.vStr ("Ask"), size := PyVal.vNum 3,
    action := PyVal.vStr ("Modify"), price := PyVal.vNone }

/-- Witness for the C3 theorem on a two-event add/modify sequence and its
swap. -/
theorem aggregator_add_modify_perm_witness :
    [c3w1, c3w2].Perm [c3w2, c3w1] ∧
    (∀ cl ∈ [c3w1, c3w2], GoodAM (PDate.d 0) cl) ∧
    ((dayOf (applyCalls agg0 [c3w1, c3w2]).1 (PDate.d 0)).bid_volume
      = (dayOf (applyCalls agg0 [c3w2, c3w1]).1 (PDate.d 0)).bid_volume ∧
    (dayOf (applyCalls agg0 [c3w1, c3w2]).1 (PDate.d 0)).ask_volume
      = (dayOf (applyCalls agg0 [c3w2, c3w1]).1 (PDate.d 0)).ask_volume) :=
  have hp : [c3w1, c3w2].Perm [c3w2, c3w1] := List.Perm.swap _ _ _
  have hg : ∀ cl ∈ [c3w1, c3w2], GoodAM (PDate.d 0) cl := by
    intro cl hcl
    rcases List.mem_cons.mp hcl with rfl | hcl
    · exact ⟨rfl, ⟨"Add", rfl, Or.inl (by decide)⟩, ⟨2, rfl⟩,
        Or.inr ⟨_, rfl⟩, Or.inl rfl⟩
    · rw [List.mem_singleton] at hcl
      subst hcl
      exact ⟨rfl, ⟨"Modify", rfl, Or.inr (by decide)⟩, ⟨3, rfl⟩,
        Or.inr ⟨_, rfl⟩, Or.inl rfl⟩
  ⟨hp, hg, aggregator_add_modify_perm (PDate.d 0) _ _ hp hg⟩

lemma runChunks_error (fetchF : ℤ × ℤ → Except String (List RawRec)) :
    ∀ (ws : List (ℤ × ℤ)) (st : AggState),
    (∃ w ∈ ws, ∃ m, fetchF w = Except.error m) →
    ∃ err, runChunks fetchF st ws = Except.error err := by
  intro ws
  induction ws with
  | nil => intro st h; simp at h
  | cons w ws ih =>
    intro st h
    cases hf : fetchF w with
    | error m => exact ⟨FetchErr.providerError m, by simp [runChunks, hf]⟩
    | ok recs =>
      rcases hp : processRecs st recs with ⟨st', o⟩
      cases o with
      | some e => exact ⟨FetchErr.pyError e, by simp [runChunks, hf, hp]⟩
      | none =>
        obtain ⟨w0, hw0, m, hm⟩ := h
        rcases List.mem_cons.mp hw0 with rfl | hmem
        · rw [hf] at hm
          simp at hm
        · obtain ⟨err, herr⟩ := ih st' ⟨w0, hmem, m, hm⟩
          exact ⟨err, by simp [runChunks, hf, hp, herr]⟩

/-- C1 (amended): the source has no per-window failure handling.  If the
provider request for any planned window raises, the exception escapes the
chunk loop to the single try/except around the whole fetch block: the
error is reported there and no final table is produced at all - the days
of the already-fetched and of the remaining windows are lost alike. -/
theorem fetch_window_failure_aborts (fetchF : ℤ × ℤ → Except String (List RawRec))
    (s e : ℤ) (c : ℕ)
    (h : ∃ w ∈ chunk_date_range s e c, ∃ m, fetchF w = Except.error m) :
    ∃ err, fetchBlock fetchF s e c = Except.error err := by
  obtain ⟨err, herr⟩ := runChunks_error fetchF (chunk_date_range s e c) agg0 h
  exact ⟨err, by simp [fetchBlock, herr]⟩

/-- The day-0 record returned for window (0, 1) in the C1 scenario. -/
def c1Rec0 : RawRec :=
  { ts_event := some (TsRaw.parsable 0), side := PyVal.vStr ("Bid"),
    size := PyVal.vNum 5, action := PyVal.vStr ("Add"), price := PyVal.vNone }

/-- The day-4 record returned for window (4, 5) in the C1 scenario. -/
def c1Rec4 : RawRec :=
  { ts_event := some (TsRaw.parsable 4), side := PyVal.vStr ("Bid"),
    size := PyVal.vNum 7, action := PyVal.vStr ("Add"), price := PyVal.vNone }

/-- The provider of the C1 counterexample and witness: the middle window
(2, 3) fails; the flanking windows return one bid add each (days 0, 4). -/
def c1Fetch : ℤ × ℤ → Except String (List RawRec) :=
  fun w =>
    if w = ((2 : ℤ), (3 : ℤ)) then Except.error ("outage")
    else if w = ((0 : ℤ), (1 : ℤ)) then Except.ok [c1Rec0]
    else Except.ok [c1Rec4]

/-- C1 counterexample: over the planned windows (0,1), (2,3), (4,5), a
failing request for the middle window aborts the whole fetch with that
error: no final table exists, so the days of the successfully fetched
first and last windows appear in no output, contradicting the claimed
report-and-continue behavior. -/
theorem fetch_window_failure_cex :
    chunk_date_range 0 5 1 = [(0, 1), (2, 3), (4, 5)] ∧
    (∃ recs, c1Fetch (0, 1) = Except.ok recs) ∧
    (∃ m, c1Fetch (2, 3) = Except.error m) ∧
    fetchBlock c1Fetch 0 5 1 = Except.error (FetchErr.providerError ("outage")) := by
  have hwin : chunk_date_range 0 5 1 = [(0, 1), (2, 3), (4, 5)] := by decide
  refine ⟨hwin, ⟨[c1Rec0], rfl⟩, ⟨"outage", rfl⟩, ?_⟩
  simp only [fetchBlock, hwin]
  simp +decide [runChunks, c1Fetch, c1Rec0, c1Rec4, processRecs, processRec, toDatetimeNs,
    DailyAggregator.update, DailyAggregator.updateRest, agg0, ensure_date, lookupDay,
    modifyDay, lowerOrNone, truthy, strLower, pyFloat, pyOr, applyEventAction, emptyDay,
    decide_eq_true_eq]

/-- Witness for the C1 theorem, at the same concrete provider. -/
theorem fetch_window_failure_aborts_witness :
    (∃ w ∈ chunk_date_range 0 5 1, ∃ m, c1Fetch w = Except.error m) ∧
    (∃ err, fetchBlock c1Fetch 0 5 1 = Except.error err) :=
  have h : ∃ w ∈ chunk_date_range 0 5 1, ∃ m, c1Fetch w = Except.error m :=
    ⟨(2, 3), by decide, "outage", rfl⟩
  ⟨h, fetch_window_failure_aborts c1Fetch 0 5 1 h⟩

/-- The C5 record with a present but unparsable ts_event. -/
def c5RecGarbage : RawRec :=
  { ts_event := some TsRaw.garbage, side := PyVal.vStr ("Bid"),
    size := PyVal.vNum 5, action := PyVal.vStr ("Add"), price := PyVal.vNone }

/-- The C5 record with ts_event absent. -/
def c5RecAbsent : RawRec :=
  { ts_event := none, side := PyVal.vStr ("Bid"),
    size := PyVal.vNum 5, action := PyVal.vStr ("Add"), price := PyVal.vNone }

/-- C5 (code bug): a fetched record whose ts_event is present but
unparsable is NOT dropped: pd.to_datetime(..., errors="coerce") coerces
it to NaT, NaT.date() returns NaT again, and NaT is not None, so the
guard passes and the record is fed to update, creating a NaT-keyed day
entry (here with bid volume 5) that reaches the final table.  A record
with ts_event absent IS dropped, as the claim requires. -/
theorem unparsable_ts_not_dropped :
    (processRec agg0 c5RecGarbage).1
      = [(PDate.NaT, { bid_volume := 5, ask_volume := 0, price := none })] ∧
    (processRec agg0 c5RecAbsent).1 = agg0 := by
  constructor
  · simp +decide [c5RecGarbage, processRec, toDatetimeNs, DailyAggregator.update,
      DailyAggregator.updateRest, agg0, ensure_date, lookupDay, modifyDay, lowerOrNone,
      truthy, strLower, pyFloat, pyOr, applyEventAction, emptyDay, decide_eq_true_eq]
  · rfl

/-- First C6 scenario event: (d1, Bid, Add, 10, 100), with d1 = day 0. -/
def c6Ev1 : Call :=
  { dateobj := PDate.d 0, side := PyVal.vStr ("Bid"), size := PyVal.vNum 10,
    action := PyVal.vStr ("Add"), price := PyVal.vNum 100 }

/-- Second C6 scenario event: (d1, Ask, Add, 4, 100). -/
def c6Ev2 : Call :=
  { dateobj := PDate.d 0, side := PyVal.vStr ("Ask"), size := PyVal.vNum 4,
    action := PyVal.vStr ("Add"), price := PyVal.vNum 100 }

/-- Third C6 scenario event: (d2, Bid, Trade, 3, 105), with d2 = day 1. -/
def c6Ev3 : Call :=
  { dateobj := PDate.d 1, side := PyVal.vStr ("Bid"), size := PyVal.vNum 3,
    action := PyVal.vStr ("Trade"), price := PyVal.vNum 105 }

/-- The finalized daily table of the C6 scenario. -/
def c6Rows : List Row := to_dataframe (applyCalls agg0 [c6Ev1, c6Ev2, c6Ev3]).1

/-- The day-d1 row the code produces in the C6 scenario. -/
def c6Row1 : Row :=
  { date := PDate.d 0, bid_volume := 10, ask_volume := 4, price := some 100 }

/-- The day-d2 row the code produces in the C6 scenario. -/
def c6Row2 : Row :=
  { date := PDate.d 1, bid_volume := 0, ask_volume := 0, price := some 105 }

/-- C6 (amended): the scenario events yield, per the code, day d1:
bidVolume 10, askVolume 4, price 100, imbalance 6/14 = 3/7 (not 0.6) and
priceChange undefined; day d2: bidVolume 0 (the trade clamps a fresh
day's zero volume - not 7), askVolume 0, price 105, imbalance undefined
(0/0 - not 1.0), priceChange 105/100 - 1 = 0.05. -/
theorem c6_scenario :
    c6Rows = [c6Row1, c6Row2] ∧
    imbalanceCol c6Rows = [some (3 / 7), none] ∧
    pctChange (priceCol c6Rows) = [PC.na, PC.val (1 / 20)] := by
  have hrows : c6Rows = [c6Row1, c6Row2] := by
    simp +decide [c6Rows, c6Ev1, c6Ev2, c6Ev3, c6Row1, c6Row2, applyCalls,
      DailyAggregator.update, DailyAggregator.updateRest, agg0, ensure_date, lookupDay,
      modifyDay, lowerOrNone, truthy, strLower, pyFloat, pyOr, applyEventAction, emptyDay,
      to_dataframe, sortRows, insertRow, pdateLeB, decide_eq_true_eq, max_def]
  refine ⟨hrows, ?_, ?_⟩ <;>
    rw [hrows] <;>
    norm_num [imbalanceCol, priceCol, pctChange, pctCell, c6Row1, c6Row2]

/-- C6 counterexample: at the scenario input the code yields imbalance
3/7 for day d1 where the claim says 0.6 = 3/5, and bid volume 0 for day
d2 where the claim says 7. -/
theorem c6_scenario_cex :
    (imbalanceCol c6Rows)[0]? ≠ some (some ((3 : ℚ) / 5)) ∧
    (c6Rows.map Row.bid_volume)[1]? ≠ some (7 : ℚ) := by
  have hrows : c6Rows = [c6Row1, c6Row2] := by
    simp +decide [c6Rows, c6Ev1, c6Ev2, c6Ev3, c6Row1, c6Row2, applyCalls,
      DailyAggregator.update, DailyAggregator.updateRest, agg0, ensure_date, lookupDay,
      modifyDay, lowerOrNone, truthy, strLower, pyFloat, pyOr, applyEventAction, emptyDay,
      to_dataframe, sortRows, insertRow, pdateLeB, decide_eq_true_eq, max_def]
  rw [hrows]
  constructor <;> norm_num [imbalanceCol, c6Row1, c6Row2]

lemma getElem?_zipWith {α β γ : Type} (f : α → β → γ) :
    ∀ (l1 : List α) (l2 : List β) (i : ℕ),
    (List.zipWith f l1 l2)[i]? =
      (l1[i]?).bind (fun a => (l2[i]?).map (f a)) := by
  intro l1
  induction l1 with
  | nil =>
    intro l2 i
    simp
  | cons a l1 ih =>
    intro l2 i
    cases l2 with
    | nil => simp
    | cons b l2 =>
      cases i with
      | zero => simp
      | succ i => simpa using ih l2 i

lemma pctChange_get (prices : List (Option ℚ)) (i : ℕ) :
    (pctChange prices)[i + 1]? =
      (prices[i]?).bind (fun a => (prices[i + 1]?).map (pctCell a)) := by
  rw [pctChange, getElem?_zipWith, List.getElem?_cons_succ]

/-- C7 (amended): pct_change has one cell per row; row 0 is NaN
(undefined); for i >= 1, a present nonzero previous price gives the
finite value price[i] / price[i-1] - 1 and an absent previous price gives
NaN; but a zero previous price gives a signed IEEE infinity (or NaN only
when the current price is also zero) - a defined non-NA float, not the
undefined value the claim asserts. -/
theorem pct_change_rows (prices : List (Option ℚ)) (i : ℕ) :
    (pctChange prices).length = prices.length ∧
    (∀ q0, prices[0]? = some q0 → (pctChange prices)[0]? = some PC.na) ∧
    (∀ p c : ℚ, prices[i]? = some (some p) → prices[i + 1]? = some (some c) → p ≠ 0 →
      (pctChange prices)[i + 1]? = some (PC.val (c / p - 1))) ∧
    (∀ c0, prices[i]? = some none → prices[i + 1]? = some c0 →
      (pctChange prices)[i + 1]? = some PC.na) ∧
    (∀ c : ℚ, prices[i]? = some (some 0) → prices[i + 1]? = some (some c) →
      (pctChange prices)[i + 1]? =
        some (if c = 0 then PC.na else if 0 < c then PC.inf else PC.ninf)) := by
  refine ⟨?_, ?_, ?_, ?_, ?_⟩
  · simp only [pctChange, List.length_zipWith, List.length_cons]
    omega
  · intro q0 h0
    rw [pctChange, getElem?_zipWith, List.getElem?_cons_zero, h0]
    simp [pctCell]
  · intro p c h1 h2 hp
    rw [pctChange_get, h1, h2]
    simp [pctCell, hp]
  · intro c0 h1 h2
    rw [pctChange_get, h1, h2]
    simp [pctCell]
  · intro c h1 h2
    rw [pctChange_get, h1, h2]
    simp [pctCell]

/-- Witness for the C7 theorem on the price column [100, 105]. -/
theorem pct_change_rows_witness :
    (pctChange [some 100, some 105])[0 + 1]? = some (PC.val ((105 : ℚ) / 100 - 1)) :=
  (pct_change_rows [some 100, some 105] 0).2.2.1 100 105 rfl rfl (by norm_num)

/-- C7 counterexample: a zero previous price with current price 105
yields a positive infinity in pct_change - a defined, non-NA cell - where
the claim requires priceChange to be undefined. -/
theorem pct_change_zero_prev_cex :
    (pctChange [some 0, some 105])[1]? = some PC.inf ∧ PC.inf ≠ PC.na := by
  constructor
  · norm_num [pctChange, pctCell]
  · decide
